import Mathlib

/-!
Verification of the AC247 task-daemon / spec-factory / MCTS codebase.

The Python sources under `apps/backend` are shallowly embedded: strings are
`List Char`, dictionaries are association lists, floats appearing in the MCTS
formulas are real numbers, and every stateful method becomes a pure function
on an explicit state record.  Each section names the Python file and symbol
it translates.
-/

set_option autoImplicit false

namespace AC247

/-- Python strings, embedded as lists of characters. -/
abbrev Str := List Char

/-- Python's `str.lower()` (ASCII case fold, which is all the code relies on). -/
def lowerStr (s : Str) : Str := s.map Char.toLower

/-- Tests whether `s` starts with `pre` (Python `str.startswith`). -/
def strStarts : Str → Str → Bool
  | _, [] => true
  | [], _ :: _ => false
  | c :: s, d :: p => c == d && strStarts s p

/-- Python `str.zfill(3)`: left-pad with `'0'` to length 3. -/
def zfill3 (s : Str) : Str := List.replicate (3 - s.length) '0' ++ s

/-- The digit run matched by the regex `^(\d+)` (empty when `s` does not
start with a digit). -/
def digitsPre (s : Str) : Str := s.takeWhile Char.isDigit

/-- Decimal digits of a natural number (Python f-string / `str(n)`). -/
def natStr (n : Nat) : Str := Nat.toDigits 10 n

end AC247

namespace AC247

/-! ### State store — `services/task_daemon/state.py`, class `StateManager`

`_state.completed_tasks` (an ordered list) and the shadow set
`_completed_set` are both carried explicitly; `saves` counts calls to
`save()` so that "performs no save" is expressible. -/

structure SMState where
  completedList : List Str
  completedSet : List Str
  saves : Nat
  deriving Repr, DecidableEq

/-- The state of a fresh `StateManager` (`__init__` / `load` without a file). -/
def smInit : SMState := ⟨[], [], 0⟩

/-- `StateManager.mark_completed`: add the id to the shadow set and append it
to the ordered list, persisting, unless it is already present. -/
def markCompleted (sm : SMState) (specId : Str) : SMState :=
  if specId ∈ sm.completedSet then sm
  else
    { completedList := sm.completedList ++ [specId]
      completedSet := specId :: sm.completedSet
      saves := sm.saves + 1 }

/-- `StateManager.is_completed`. -/
def isCompleted (sm : SMState) (specId : Str) : Bool :=
  decide (specId ∈ sm.completedSet)

/-- `StateManager._is_dep_met`: the 3-tier dependency matcher.
Tier 1: exact membership.  Tier 2: the dep's leading digit run, zero-padded
to 3 digits, must prefix a completed id followed by `'-'`, and either the
whole dep (case-insensitively) prefixes that id or the dep equals the padded
number.  Tier 3: a completed id starts (case-insensitively) with the whole
dep, which must be at least 3 characters long. -/
def isDepMet (completedSet : List Str) (dep : Str) : Bool :=
  if dep ∈ completedSet then true
  else
    let numRun := digitsPre dep
    let tier2 :=
      if numRun ≠ [] then
        let padded := zfill3 numRun
        let depLower := lowerStr dep
        completedSet.any (fun completed =>
          let cl := lowerStr completed
          strStarts cl (padded ++ ['-']) &&
            (strStarts cl depLower || depLower == padded))
      else false
    if tier2 then true
    else
      let depLower := lowerStr dep
      if 3 ≤ depLower.length then
        completedSet.any (fun completed => strStarts (lowerStr completed) depLower)
      else false

/-- `StateManager.are_dependencies_met`: vacuously true on `[]`, else every
dep must be met. -/
def areDepsMet (sm : SMState) (dependsOn : List Str) : Bool :=
  dependsOn.all (isDepMet sm.completedSet)

end AC247

namespace AC247

/-! Concrete strings used by witnesses and counterexamples. -/

def s002x : Str := "002-x".toList

def sDep2 : Str := "2".toList

def sDep002 : Str := "002".toList

/-- A state whose completion set is `{"002-x"}`. -/
def smWith002x : SMState := ⟨[s002x], [s002x], 1⟩

/-- The declarative reading of the dependency matcher, tier by tier, used to
state the amended C1. -/
def depMetSpec (completedSet : List Str) (dep : Str) : Prop :=
  dep ∈ completedSet ∨
    (∃ c ∈ completedSet,
      strStarts (lowerStr c) (zfill3 (digitsPre dep) ++ ['-']) = true ∧
        (strStarts (lowerStr c) (lowerStr dep) = true ∨
          lowerStr dep = zfill3 (digitsPre dep))) ∨
    (3 ≤ (lowerStr dep).length ∧
      ∃ c ∈ completedSet, strStarts (lowerStr c) (lowerStr dep) = true)

theorem areDepsMet_singleton (sm : SMState) (dep : Str) :
    areDepsMet sm [dep] = isDepMet sm.completedSet dep := by
  simp [areDepsMet]

theorem isDepMet_iff (cs : List Str) (dep : Str) (hd : digitsPre dep ≠ []) :
    isDepMet cs dep = true ↔ depMetSpec cs dep := by
  simp only [isDepMet, depMetSpec]
  by_cases hmem : dep ∈ cs
  · simp [hmem]
  · rw [if_neg hmem, if_pos hd]
    by_cases h2 :
        (cs.any fun completed =>
          strStarts (lowerStr completed) (zfill3 (digitsPre dep) ++ ['-']) &&
            (strStarts (lowerStr completed) (lowerStr dep) ||
              lowerStr dep == zfill3 (digitsPre dep))) = true
    · rw [if_pos h2]
      simp only [List.any_eq_true, Bool.and_eq_true, Bool.or_eq_true,
        beq_iff_eq] at h2
      obtain ⟨c, hc, hstart, hrest⟩ := h2
      simp only [true_iff]
      exact Or.inr (Or.inl ⟨c, hc, hstart, hrest⟩)
    · rw [if_neg h2]
      simp only [List.any_eq_true, Bool.and_eq_true, Bool.or_eq_true,
        beq_iff_eq, not_exists, not_and, not_or] at h2
      constructor
      · intro h3
        by_cases hlen : 3 ≤ (lowerStr dep).length
        · rw [if_pos hlen] at h3
          simp only [List.any_eq_true] at h3
          obtain ⟨c, hc, hcs⟩ := h3
          exact Or.inr (Or.inr ⟨hlen, c, hc, hcs⟩)
        · rw [if_neg hlen] at h3
          exact absurd h3 (by simp)
      · rintro (h | ⟨c, hc, hstart, hrest⟩ | ⟨hlen, c, hc, hcs⟩)
        · exact absurd h hmem
        · exact absurd hrest (not_or.mpr (h2 c hc hstart))
        · rw [if_pos hlen]
          simp only [List.any_eq_true]
          exact ⟨c, hc, hcs⟩

/-- C1 (amended).  For a dependency starting with digits, with `N` its
3-digit zero-padded digit run, `are_dependencies_met([dep])` returns true
iff `dep` is exactly in the completion set, or some completed id starts
(case-insensitively) with `N-` and either starts with the whole `dep` or
`dep` itself equals `N`, or `dep` has length at least 3 and some completed
id starts (case-insensitively) with the whole `dep`. -/
theorem c1_dep_matcher_amended (sm : SMState) (dep : Str)
    (hd : digitsPre dep ≠ []) :
    areDepsMet sm [dep] = true ↔ depMetSpec sm.completedSet dep := by
  rw [areDepsMet_singleton]
  exact isDepMet_iff sm.completedSet dep hd

/-- Witness for the amended C1 at `dep = "002"`, completed set `{"002-x"}`:
the dependency is met because `"002-x"` starts with `"002-"` and the dep is
the bare padded number. -/
theorem c1_dep_matcher_witness :
    digitsPre sDep002 ≠ [] ∧
      (areDepsMet smWith002x [sDep002] = true ↔
        depMetSpec smWith002x.completedSet sDep002) :=
  ⟨by decide, c1_dep_matcher_amended smWith002x sDep002 (by decide)⟩

/-- Counterexample to C1 as stated: `dep = "2"` consists only of digits and
the completed id `"002-x"` starts with `"002-"` (the padded prefix plus
dash), yet `are_dependencies_met(["2"])` is false — the pure-number branch
of the code compares the dep against the *padded* number only. -/
theorem c1_dep_matcher_cex :
    sDep2.all Char.isDigit = true ∧
      s002x ∈ smWith002x.completedSet ∧
      strStarts (lowerStr s002x) (zfill3 (digitsPre sDep2) ++ ['-']) = true ∧
      areDepsMet smWith002x [sDep2] = false := by decide

/-- The invariant the state store maintains between the ordered
`completed_tasks` list and the `_completed_set` shadow set. -/
def smInv (sm : SMState) : Prop :=
  (∀ x, x ∈ sm.completedSet ↔ x ∈ sm.completedList) ∧
    sm.completedList.Nodup ∧ sm.completedSet.Nodup

theorem markCompleted_inv {sm : SMState} (h : smInv sm) (specId : Str) :
    smInv (markCompleted sm specId) := by
  obtain ⟨hiff, hlist, hset⟩ := h
  unfold markCompleted
  by_cases hmem : specId ∈ sm.completedSet
  · rw [if_pos hmem]; exact ⟨hiff, hlist, hset⟩
  · rw [if_neg hmem]
    refine ⟨?_, ?_, ?_⟩
    · intro x
      simp only [List.mem_cons, List.mem_append, List.mem_singleton]
      rw [hiff x]
      tauto
    · have hnotin : specId ∉ sm.completedList := fun hc => hmem ((hiff specId).mpr hc)
      simp [List.nodup_append, hlist, hnotin]
    · exact List.nodup_cons.mpr ⟨hmem, hset⟩

theorem foldl_markCompleted_inv (ops : List Str) :
    ∀ sm : SMState, smInv sm → smInv (ops.foldl markCompleted sm) := by
  induction ops with
  | nil => intro sm h; exact h
  | cons op rest ih =>
      intro sm h
      exact ih (markCompleted sm op) (markCompleted_inv h op)

/-- C10: after any sequence of `mark_completed` operations from the initial
state, the shadow set holds exactly the entries of the persisted
`completed_tasks` list and that list has no duplicates; `mark_completed` on
an already-completed id leaves the state — including the save counter —
unchanged; and `are_dependencies_met([])` is true. -/
theorem c10_state_store_invariant :
    (∀ ops : List Str, smInv (ops.foldl markCompleted smInit)) ∧
      (∀ (sm : SMState) (specId : Str),
        specId ∈ sm.completedSet → markCompleted sm specId = sm) ∧
      (∀ sm : SMState, areDepsMet sm [] = true) := by
  refine ⟨?_, ?_, ?_⟩
  · intro ops
    exact foldl_markCompleted_inv ops smInit
      ⟨fun _ => Iff.rfl, List.nodup_nil, List.nodup_nil⟩
  · intro sm specId hmem
    unfold markCompleted
    rw [if_pos hmem]
  · intro sm
    simp [areDepsMet]

/-- Witness for C10: a concrete two-operation run, a concrete idempotent
re-mark (which also keeps the save counter), and the empty dependency list. -/
theorem c10_state_store_witness :
    smInv ([s002x, sDep002].foldl markCompleted smInit) ∧
      markCompleted smWith002x s002x = smWith002x ∧
      areDepsMet smWith002x [] = true :=
  ⟨c10_state_store_invariant.1 [s002x, sDep002],
    c10_state_store_invariant.2.1 smWith002x s002x (by decide),
    c10_state_store_invariant.2.2 smWith002x⟩

end AC247

namespace AC247

/-! ### Status classes — `services/task_daemon/types.py` -/

def sQueue : Str := "queue".toList

def sBacklog : Str := "backlog".toList

def sQueued : Str := "queued".toList

def sInProgress : Str := "in_progress".toList

def sAiReview : Str := "ai_review".toList

def sHumanReview : Str := "human_review".toList

def sDone : Str := "done".toList

def sCompletedSt : Str := "completed".toList

def sMerged : Str := "merged".toList

def sPrCreated : Str := "pr_created".toList

def sComplete : Str := "complete".toList

def sError : Str := "error".toList

def sFailed : Str := "failed".toList

def sStuck : Str := "stuck".toList

/-- `QUEUE_STATUSES` (types.py line 88). -/
def QUEUE_STATUSES : List Str := [sQueue, sBacklog, sQueued]

/-- `RUNNING_STATUSES` (types.py line 91). -/
def RUNNING_STATUSES : List Str := [sInProgress, sAiReview, sHumanReview]

/-- `COMPLETED_STATUSES` (types.py line 92).  Note: `"complete"` is absent. -/
def COMPLETED_STATUSES : List Str := [sDone, sCompletedSt, sMerged, sPrCreated]

/-- `ERROR_STATUSES` (types.py line 93). -/
def ERROR_STATUSES : List Str := [sError, sFailed, sStuck]

/-- `NO_START_STATUSES` (types.py line 96). -/
def NO_START_STATUSES : List Str :=
  RUNNING_STATUSES ++ COMPLETED_STATUSES ++ ERROR_STATUSES

end AC247

namespace AC247

/-! ### Startup scan — `services/task_daemon/__init__.py`,
`TaskDaemon._scan_existing_tasks` (lines 304-345).

A directory entry records the directory name, whether it is a directory,
whether `implementation_plan.json` exists, and the plan's `status` value
when the plan loads to a truthy dict (`none` otherwise). -/

structure SpecEntry where
  name : Str
  isDir : Bool
  hasPlan : Bool
  planStatus : Option Str
  deriving Repr, DecidableEq

/-- One iteration of the scan loop: queue on a queue-class status, record
into the completion set on a completed-class status, skip otherwise. -/
def scanStep (acc : SMState × List Str) (e : SpecEntry) : SMState × List Str :=
  if !e.isDir || strStarts e.name ['.'] then acc
  else if !e.hasPlan then acc
  else
    match e.planStatus with
    | none => acc
    | some rawStatus =>
      let status := lowerStr rawStatus
      if status ∈ QUEUE_STATUSES then (acc.1, acc.2 ++ [e.name])
      else if status ∈ COMPLETED_STATUSES then
        if isCompleted acc.1 e.name then acc
        else (markCompleted acc.1 e.name, acc.2)
      else acc

/-- `TaskDaemon._scan_existing_tasks`, returning the state-manager state and
the list of queued spec ids. -/
def scanExistingTasks (entries : List SpecEntry) (sm : SMState) :
    SMState × List Str :=
  entries.foldl scanStep (sm, [])

theorem mem_markCompleted_self (sm : SMState) (x : Str) :
    x ∈ (markCompleted sm x).completedSet := by
  unfold markCompleted
  by_cases h : x ∈ sm.completedSet
  · rwa [if_pos h]
  · rw [if_neg h]; exact List.mem_cons_self x _

theorem scanStep_mono (acc : SMState × List Str) (e : SpecEntry) (x : Str) :
    (x ∈ acc.1.completedSet → x ∈ (scanStep acc e).1.completedSet) ∧
      (x ∈ acc.2 → x ∈ (scanStep acc e).2) := by
  simp only [scanStep]
  by_cases h1 : (!e.isDir || strStarts e.name ['.']) = true
  · rw [if_pos h1]; exact ⟨id, id⟩
  · rw [if_neg h1]
    by_cases h2 : (!e.hasPlan) = true
    · rw [if_pos h2]; exact ⟨id, id⟩
    · rw [if_neg h2]
      rcases hpe : e.planStatus with _ | st
      · simp only [hpe]; exact ⟨id, id⟩
      · simp only [hpe]
        by_cases hq : lowerStr st ∈ QUEUE_STATUSES
        · rw [if_pos hq]; exact ⟨id, fun h => List.mem_append_left _ h⟩
        · rw [if_neg hq]
          by_cases hc : lowerStr st ∈ COMPLETED_STATUSES
          · rw [if_pos hc]
            by_cases hdone : isCompleted acc.1 e.name = true
            · rw [if_pos hdone]; exact ⟨id, id⟩
            · rw [if_neg hdone]
              refine ⟨fun h => ?_, id⟩
              unfold markCompleted
              split
              · exact h
              · exact List.mem_cons_of_mem _ h
          · rw [if_neg hc]; exact ⟨id, id⟩

theorem foldScan_mono (entries : List SpecEntry) :
    ∀ (acc : SMState × List Str) (x : Str),
      (x ∈ acc.1.completedSet →
        x ∈ (entries.foldl scanStep acc).1.completedSet) ∧
      (x ∈ acc.2 → x ∈ (entries.foldl scanStep acc).2) := by
  induction entries with
  | nil => exact fun acc x => ⟨id, id⟩
  | cons e rest ih =>
      intro acc x
      refine ⟨fun h => ?_, fun h => ?_⟩
      · exact (ih (scanStep acc e) x).1 ((scanStep_mono acc e x).1 h)
      · exact (ih (scanStep acc e) x).2 ((scanStep_mono acc e x).2 h)

theorem scanStep_records (acc : SMState × List Str) (e : SpecEntry)
    (hdir : e.isDir = true) (hdot : strStarts e.name ['.'] = false)
    (hplan : e.hasPlan = true) (st : Str) (hst : e.planStatus = some st) :
    (lowerStr st ∈ COMPLETED_STATUSES →
      e.name ∈ (scanStep acc e).1.completedSet) ∧
    (lowerStr st ∈ QUEUE_STATUSES → e.name ∈ (scanStep acc e).2) := by
  simp only [scanStep, hdir, hdot, hplan, hst, Bool.not_true, Bool.false_or,
    Bool.false_eq_true, if_false]
  constructor
  · intro hc
    have hq : lowerStr st ∉ QUEUE_STATUSES := by
      intro hq'
      simp only [COMPLETED_STATUSES, List.mem_cons, List.not_mem_nil,
        or_false] at hc
      simp only [QUEUE_STATUSES, List.mem_cons, List.not_mem_nil,
        or_false] at hq'
      rcases hc with h1 | h1 | h1 | h1 <;> rcases hq' with h2 | h2 | h2 <;>
        rw [h1] at h2 <;> exact absurd h2 (by decide)
    rw [if_neg hq, if_pos hc]
    split
    · next hdone =>
        simpa [isCompleted] using hdone
    · exact mem_markCompleted_self acc.1 e.name
  · intro hq
    rw [if_pos hq]
    exact List.mem_append_right _ (List.mem_singleton.mpr rfl)

/-- C2 (amended).  During the startup scan, every visible spec directory
whose plan status (lowercased) is in `COMPLETED_STATUSES` — `done`,
`completed`, `merged`, `pr_created`, but not `complete` — ends in the
completion set, and every one whose status is in `QUEUE_STATUSES` —
`queue`, `backlog`, `queued` — is enqueued. -/
theorem c2_startup_scan_amended (entries : List SpecEntry) (sm : SMState)
    (e : SpecEntry) (he : e ∈ entries) (hdir : e.isDir = true)
    (hdot : strStarts e.name ['.'] = false) (hplan : e.hasPlan = true)
    (st : Str) (hst : e.planStatus = some st) :
    (lowerStr st ∈ COMPLETED_STATUSES →
      e.name ∈ (scanExistingTasks entries sm).1.completedSet) ∧
    (lowerStr st ∈ QUEUE_STATUSES →
      e.name ∈ (scanExistingTasks entries sm).2) := by
  unfold scanExistingTasks
  generalize ((sm, []) : SMState × List Str) = acc
  induction entries generalizing acc with
  | nil => cases he
  | cons e0 rest ih =>
      rcases List.mem_cons.mp he with rfl | hrest
      · rw [List.foldl_cons]
        have hrec := scanStep_records acc e hdir hdot hplan st hst
        constructor
        · intro hc
          exact (foldScan_mono rest (scanStep acc e) e.name).1 (hrec.1 hc)
        · intro hq
          exact (foldScan_mono rest (scanStep acc e) e.name).2 (hrec.2 hq)
      · rw [List.foldl_cons]
        exact ih hrest (scanStep acc e0)

def s001a : Str := "001-a".toList

/-- The scan input used by the C2 counterexample: one well-formed spec
directory whose plan status is `"complete"`. -/
def cexScanEntries : List SpecEntry := [⟨s001a, true, true, some sComplete⟩]

/-- Counterexample to C2 as stated: a spec whose plan status is
`"complete"` — which the claim places in the completed class — is neither
recorded into the completion set nor enqueued by the startup scan, because
`COMPLETED_STATUSES` does not contain `"complete"`. -/
theorem c2_startup_scan_cex :
    (scanExistingTasks cexScanEntries smInit).1.completedSet = [] ∧
      (scanExistingTasks cexScanEntries smInit).2 = [] ∧
      s001a ∉ (scanExistingTasks cexScanEntries smInit).1.completedSet := by
  decide

/-- Witness for the amended C2: a scan over a `done` spec and a `queued`
spec records the first into the completion set. -/
theorem c2_startup_scan_witness :
    (⟨s001a, true, true, some sDone⟩ : SpecEntry) ∈
        ([⟨s001a, true, true, some sDone⟩, ⟨s002x, true, true, some sQueued⟩] :
          List SpecEntry) ∧
      s001a ∈
        (scanExistingTasks
          [⟨s001a, true, true, some sDone⟩, ⟨s002x, true, true, some sQueued⟩]
          smInit).1.completedSet :=
  ⟨List.mem_cons_self _ _,
    (c2_startup_scan_amended
      [⟨s001a, true, true, some sDone⟩, ⟨s002x, true, true, some sQueued⟩]
      smInit ⟨s001a, true, true, some sDone⟩ (List.mem_cons_self _ _) rfl
      (by decide) rfl sDone rfl).1 (by decide)⟩

end AC247

namespace AC247

/-! ### Stuck-task recovery — `services/task_daemon/__init__.py`,
`TaskDaemon._recover_task` (lines 883-930), with
`StateManager.increment_recovery_count` (state.py lines 121-126).

One stuck event for a single spec is modelled as a transition on the
spec-relevant projection of the daemon state.  The early-return taken when
the daemon is shutting down mid-recovery is outside the model. -/

def sMaxRecoveryMsg : Str := "Max recovery".toList

structure RecState where
  recoveryCount : Nat
  killedCount : Nat
  running : Bool
  queued : Bool
  recovering : Bool
  planStatus : Str
  lastError : Option Str
  deriving Repr, DecidableEq

/-- `TaskDaemon._recover_task` on one stuck event: increment the recovery
count; past `max_recovery`, set the plan terminal `error` with reason
`"Max recovery"` and drop the task from the running set without
re-enqueueing; otherwise kill the process tree, reset the plan to `queue`,
and re-enqueue. -/
def recoverTask (maxRecovery : Nat) (s : RecState) : RecState :=
  let count := s.recoveryCount + 1
  if maxRecovery < count then
    { s with
        recoveryCount := count
        planStatus := sError
        lastError := some sMaxRecoveryMsg
        running := false }
  else
    { s with
        recoveryCount := count
        recovering := true
        killedCount := s.killedCount + 1
        running := false
        planStatus := sQueue
        queued := true }

/-- C4.  On the `n`-th stuck event (the state carries recovery count
`n - 1`), the recovery count strictly increases to `n`; while `n ≤
max_recovery` the task is killed and re-enqueued with its plan reset to
`queue`; on the `(max_recovery + 1)`-th event the spec transitions to
terminal `error` with recorded reason `"Max recovery"`, leaves the running
set, and is not re-enqueued (and no further kill happens); and the number
of kills never exceeds `min(recovery count, max_recovery)`. -/
theorem c4_recovery_bound (maxRecovery n : Nat) (s : RecState)
    (hcount : s.recoveryCount = n - 1) (hn : 1 ≤ n) (hq : s.queued = false) :
    ((recoverTask maxRecovery s).recoveryCount = n ∧
      s.recoveryCount < (recoverTask maxRecovery s).recoveryCount) ∧
      (n ≤ maxRecovery →
        (recoverTask maxRecovery s).queued = true ∧
          (recoverTask maxRecovery s).planStatus = sQueue ∧
          (recoverTask maxRecovery s).running = false ∧
          (recoverTask maxRecovery s).killedCount = s.killedCount + 1) ∧
      (n = maxRecovery + 1 →
        (recoverTask maxRecovery s).planStatus = sError ∧
          (recoverTask maxRecovery s).lastError = some sMaxRecoveryMsg ∧
          (recoverTask maxRecovery s).running = false ∧
          (recoverTask maxRecovery s).queued = false ∧
          (recoverTask maxRecovery s).killedCount = s.killedCount) ∧
      (s.killedCount ≤ min s.recoveryCount maxRecovery →
        (recoverTask maxRecovery s).killedCount ≤
          min (recoverTask maxRecovery s).recoveryCount maxRecovery) := by
  unfold recoverTask
  by_cases hlt : maxRecovery < s.recoveryCount + 1
  · rw [if_pos hlt]
    dsimp only
    exact ⟨⟨by omega, by omega⟩, fun hle => absurd hle (by omega), fun _ =>
      ⟨rfl, rfl, rfl, hq, rfl⟩, fun hk => by omega⟩
  · rw [if_neg hlt]
    dsimp only
    exact ⟨⟨by omega, by omega⟩, fun _ => ⟨rfl, rfl, rfl, rfl⟩, fun heq =>
      absurd heq (by omega), fun hk => by omega⟩

/-- Witness for C4 at `max_recovery = 3`: the first stuck event re-enqueues,
and from recovery count 3 the fourth event goes terminal. -/
theorem c4_recovery_bound_witness :
    ((⟨0, 0, true, false, false, sInProgress, none⟩ : RecState).recoveryCount
        = 1 - 1 ∧
      (recoverTask 3 ⟨0, 0, true, false, false, sInProgress, none⟩).queued
        = true) ∧
      ((⟨3, 3, true, false, false, sInProgress, none⟩ :
          RecState).recoveryCount = 4 - 1 ∧
        (recoverTask 3 ⟨3, 3, true, false, false, sInProgress, none⟩).planStatus
          = sError) :=
  ⟨⟨rfl,
      ((c4_recovery_bound 3 1 ⟨0, 0, true, false, false, sInProgress, none⟩
        rfl (by decide) rfl).2.1 (by decide)).1⟩,
    ⟨rfl,
      ((c4_recovery_bound 3 4 ⟨3, 3, true, false, false, sInProgress, none⟩
        rfl (by decide) rfl).2.2.1 rfl).1⟩⟩

end AC247

namespace AC247

/-! ### Batch child-spec creation guard —
`agents/tools_pkg/tools/subtask.py`, tool `create_batch_child_specs`
(lines 456-529), constants `MAX_CHILD_DEPTH` and `DESIGN_ONLY_TYPES`
(lines 26-29).

The tool's decision path is embedded up to the point where it hands off to
`SpecFactory.create_batch_specs`; the returned variant records which error
message (if any) was produced and which tasks would be created. -/

def sImpl : Str := "impl".toList

def sDesign : Str := "design".toList

def sArchitecture : Str := "architecture".toList

def sMcts : Str := "mcts".toList

def MAX_CHILD_DEPTH : Nat := 2

def DESIGN_ONLY_TYPES : List Str := [sDesign, sArchitecture, sMcts]

structure ParentPlan where
  status : Str
  childSpecs : Option (List Str)
  deriving Repr, DecidableEq

structure SpecDef where
  task : Option Str
  taskType : Option Str
  deriving Repr, DecidableEq

inductive BatchOutcome where
  | errEmptySpecs
  | errAlreadyDecomposed (existing : List Str)
  | errDepthLimit (currentDepth : Nat)
  | errDesignDepth
  | created (tasks : List Str)
  deriving Repr, DecidableEq

/-- The idempotency guard's condition: the loaded parent plan has
`status == "complete"` or a truthy (non-empty) `childSpecs`. -/
def batchGuard : Option ParentPlan → Bool
  | some p => p.status == sComplete || !(p.childSpecs.getD []).isEmpty
  | none => false

/-- `parent_plan.get("childSpecs", [])` as used in the refusal message. -/
def batchExisting : Option ParentPlan → List Str
  | some p => p.childSpecs.getD []
  | none => []

/-- Pass 1 of `SpecFactory.create_batch_specs`: one spec per definition
with a truthy `task`. -/
def batchTasks (specsList : List SpecDef) : List Str :=
  specsList.filterMap fun s =>
    match s.task with
    | some t => if t = [] then none else some t
    | none => none

/-- The decision path of `create_batch_child_specs`: empty-list check, then
the idempotency guard, then the depth guard, then the design-type depth
guard, and finally creation. -/
def createBatchChildSpecs (specsList : List SpecDef)
    (parentPlan : Option ParentPlan) (currentDepth : Nat) : BatchOutcome :=
  if specsList = [] then .errEmptySpecs
  else if batchGuard parentPlan then .errAlreadyDecomposed (batchExisting parentPlan)
  else if MAX_CHILD_DEPTH < currentDepth + 1 then .errDepthLimit currentDepth
  else if 2 ≤ currentDepth + 1 &&
      specsList.any (fun s => (s.taskType.getD sImpl) ∈ DESIGN_ONLY_TYPES) then
    .errDesignDepth
  else .created (batchTasks specsList)

/-- The specs a `BatchOutcome` actually creates: none on any refusal. -/
def batchCreated : BatchOutcome → List Str
  | .created tasks => tasks
  | _ => []

/-- C5.  When the parent's loaded plan already has `status = "complete"` or
a non-empty `childSpecs` list, a (non-trivial) batch creation call refuses
with the already-decomposed error carrying the existing child list, and no
spec is created. -/
theorem c5_batch_idempotency_guard (specsList : List SpecDef)
    (parentPlan : Option ParentPlan) (p : ParentPlan) (currentDepth : Nat)
    (hne : specsList ≠ []) (hp : parentPlan = some p)
    (hguard : p.status = sComplete ∨ p.childSpecs.getD [] ≠ []) :
    createBatchChildSpecs specsList parentPlan currentDepth =
        .errAlreadyDecomposed (p.childSpecs.getD []) ∧
      batchCreated (createBatchChildSpecs specsList parentPlan currentDepth)
        = [] := by
  have hg : batchGuard parentPlan = true := by
    subst hp
    simp only [batchGuard]
    rcases hguard with h | h
    · rw [h]; simp
    · have hne' : (p.childSpecs.getD []).isEmpty = false := by
        cases hcs : p.childSpecs.getD [] with
        | nil => exact absurd hcs h
        | cons a l => rfl
      rw [hne']; simp
  have hout : createBatchChildSpecs specsList parentPlan currentDepth =
      .errAlreadyDecomposed (batchExisting parentPlan) := by
    unfold createBatchChildSpecs
    rw [if_neg hne, if_pos hg]
  rw [hout, hp]
  exact ⟨rfl, rfl⟩

/-- Witness for C5: a parent already marked `complete` with two recorded
children refuses a one-spec batch call and creates nothing. -/
theorem c5_batch_idempotency_guard_witness :
    createBatchChildSpecs [⟨some s001a, none⟩]
        (some ⟨sComplete, some [s001a, s002x]⟩) 0 =
        .errAlreadyDecomposed [s001a, s002x] ∧
      batchCreated
        (createBatchChildSpecs [⟨some s001a, none⟩]
          (some ⟨sComplete, some [s001a, s002x]⟩) 0) = [] :=
  c5_batch_idempotency_guard [⟨some s001a, none⟩]
    (some ⟨sComplete, some [s001a, s002x]⟩) ⟨sComplete, some [s001a, s002x]⟩
    0 (by decide) rfl (Or.inl rfl)

end AC247

namespace AC247

/-! ### Auto-verify chain — `services/task_daemon/__init__.py`,
`TaskDaemon._auto_queue_verify` (lines 773-852) and the constants
`IMPL_TASK_TYPES` / `MAX_VERIFY_ATTEMPTS` (lines 65-69). -/

def sVerify : Str := "verify".toList

def sVerifyDash : Str := "verify-".toList

def sFrontend : Str := "frontend".toList

def sBackend : Str := "backend".toList

def sDatabase : Str := "database".toList

def sApi : Str := "api".toList

/-- `IMPL_TASK_TYPES`: task types that trigger auto-verify on success. -/
def IMPL_TASK_TYPES : List Str := [sImpl, sFrontend, sBackend, sDatabase, sApi]

/-- `MAX_VERIFY_ATTEMPTS`: cap on verify specs per parent. -/
def MAX_VERIFY_ATTEMPTS : Nat := 3

/-- The guard in `_read_output` (line 725): auto-verify fires exactly for a
zero exit code and an impl-like task type. -/
def triggersAutoVerify (success : Bool) (taskType : Str) : Bool :=
  success && decide (taskType ∈ IMPL_TASK_TYPES)

/-- The plan fields `_auto_queue_verify` reads and writes. -/
structure VPlan where
  status : Str
  taskType : Option Str
  priority : Nat
  dependsOn : List Str
  parentTask : Option Str
  deriving Repr, DecidableEq

/-- One entry of the specs directory as `_auto_queue_verify` sees it. -/
structure SpecDirEntry where
  name : Str
  isDir : Bool
  plan : Option VPlan
  deriving Repr, DecidableEq

/-- Does this directory hold a loadable verify spec depending on `specId`?
(Counting loop of `_auto_queue_verify`.) -/
def countsAsVerifyOf (specId : Str) (d : SpecDirEntry) : Bool :=
  d.isDir &&
    match d.plan with
    | some p => p.taskType == some sVerify && decide (specId ∈ p.dependsOn)
    | none => false

/-- The number of existing verify specs for this parent. -/
def verifyCount (dirs : List SpecDirEntry) (specId : Str) : Nat :=
  (dirs.filter (countsAsVerifyOf specId)).length

/-- The synthesized verify spec id: `verify-<id>`, or `verify-<id>-N` for
attempt `N ≥ 2`. -/
def verifyName (specId : Str) (attempt : Nat) : Str :=
  if attempt = 1 then sVerifyDash ++ specId
  else sVerifyDash ++ specId ++ ['-'] ++ natStr attempt

/-- The plan written into the new verify spec. -/
def verifyPlanFor (specId : Str) : VPlan :=
  ⟨sQueue, some sVerify, 1, [specId], some specId⟩

/-- `TaskDaemon._auto_queue_verify`: count the verify siblings; give up at
the cap or if the target directory already exists; otherwise create the
verify spec directory with its plan. -/
def autoQueueVerify (specId : Str) (dirs : List SpecDirEntry) :
    Option SpecDirEntry :=
  let vc := verifyCount dirs specId
  if MAX_VERIFY_ATTEMPTS ≤ vc then none
  else
    let vname := verifyName specId (vc + 1)
    if dirs.any (fun d => d.name == vname) then none
    else some ⟨vname, true, some (verifyPlanFor specId)⟩

theorem verifyCount_append_one (dirs : List SpecDirEntry) (specId : Str)
    (d : SpecDirEntry) :
    verifyCount (dirs ++ [d]) specId =
      verifyCount dirs specId + (if countsAsVerifyOf specId d then 1 else 0) := by
  unfold verifyCount
  rw [List.filter_append, List.length_append]
  congr 1
  by_cases h : countsAsVerifyOf specId d = true
  · simp [h]
  · simp [h]

/-- C9.  A created verify spec is named `verify-<id>` on the first attempt
and `verify-<id>-N` on attempt `N`, and its plan has `status = queue`,
`taskType = verify`, `priority = 1` (high), `dependsOn = [<id>]` and
`parentTask = <id>`; creation happens only below the cap of
`MAX_VERIFY_ATTEMPTS = 3`; and counting the new spec, the number of verify
specs depending on the parent stays at most 3. -/
theorem c9_auto_verify_chain (specId : Str) (dirs : List SpecDirEntry)
    (hcap : verifyCount dirs specId ≤ MAX_VERIFY_ATTEMPTS) :
    (∀ v, autoQueueVerify specId dirs = some v →
      v.name = verifyName specId (verifyCount dirs specId + 1) ∧
        v.plan = some (verifyPlanFor specId) ∧
        verifyCount dirs specId < MAX_VERIFY_ATTEMPTS) ∧
      verifyCount (dirs ++ (autoQueueVerify specId dirs).toList) specId ≤
        MAX_VERIFY_ATTEMPTS := by
  unfold autoQueueVerify
  by_cases h1 : MAX_VERIFY_ATTEMPTS ≤ verifyCount dirs specId
  · rw [if_pos h1]
    refine ⟨(fun v hv => nomatch hv), ?_⟩
    simpa using hcap
  · rw [if_neg h1]
    by_cases h2 :
        (dirs.any fun d =>
          d.name == verifyName specId (verifyCount dirs specId + 1)) = true
    · rw [if_pos h2]
      refine ⟨(fun v hv => nomatch hv), ?_⟩
      simpa using hcap
    · rw [if_neg h2]
      constructor
      · intro v hv
        cases hv
        exact ⟨rfl, rfl, lt_of_not_le h1⟩
      · rw [Option.toList_some, verifyCount_append_one]
        have hcnt : countsAsVerifyOf specId
            ⟨verifyName specId (verifyCount dirs specId + 1), true,
              some (verifyPlanFor specId)⟩ = true := by
          simp [countsAsVerifyOf, verifyPlanFor]
        rw [hcnt]
        simp only [if_true]
        omega

/-- Witness for C9: with no existing verify specs, a successful impl task
for `001-a` synthesizes `verify-001-a` with the claimed plan, and the cap
holds afterwards. -/
theorem c9_auto_verify_chain_witness :
    triggersAutoVerify true sImpl = true ∧
      verifyCount [] s001a ≤ MAX_VERIFY_ATTEMPTS ∧
      ((∀ v, autoQueueVerify s001a [] = some v →
        v.name = verifyName s001a (verifyCount [] s001a + 1) ∧
          v.plan = some (verifyPlanFor s001a) ∧
          verifyCount [] s001a < MAX_VERIFY_ATTEMPTS) ∧
        verifyCount ([] ++ (autoQueueVerify s001a []).toList) s001a ≤
          MAX_VERIFY_ATTEMPTS) :=
  ⟨by decide, by decide, c9_auto_verify_chain s001a [] (by decide)⟩

end AC247

namespace AC247

/-! ### Scheduler ready-task selection — `services/task_daemon/types.py`
`QueuedTask.__lt__` (lines 174-178) and
`services/task_daemon/__init__.py` `TaskDaemon._get_next_ready_task`
(lines 514-555).

`queued_at` timestamps are embedded as integers; `priority` is an integer
as read from the plan file. -/

structure DQueuedTask where
  spec_id : Str
  priority : Int
  queued_at : Int
  depends_on : List Str
  planStatus : Option Str
  deriving Repr, DecidableEq

/-- `QueuedTask.__lt__`: lower priority value first, tie-break by earlier
`queued_at`. -/
def qlt (a b : DQueuedTask) : Bool :=
  if a.priority ≠ b.priority then decide (a.priority < b.priority)
  else decide (a.queued_at < b.queued_at)

/-- The stale-entry marking of `_get_next_ready_task` (the mark-completed
side effect guarded by `is_completed`). -/
def markStale (sm : SMState) (specId : Str) : SMState :=
  if isCompleted sm specId then sm else markCompleted sm specId

/-- The tail of the scan once a ready task has been found: later
externally-completed entries are still removed from the queue and recorded
as completed; everything else is kept. -/
def staleSweep (sm : SMState) : List DQueuedTask → List DQueuedTask × SMState
  | [] => ([], sm)
  | t :: rest =>
    match t.planStatus with
    | some st =>
      if lowerStr st ∈ COMPLETED_STATUSES then
        staleSweep (markStale sm t.spec_id) rest
      else
        let r := staleSweep sm rest
        (t :: r.1, r.2)
    | none =>
      let r := staleSweep sm rest
      (t :: r.1, r.2)

structure NextTaskResult where
  ready : Option DQueuedTask
  queue : List DQueuedTask
  sm : SMState
  deriving Repr, DecidableEq

/-- `TaskDaemon._get_next_ready_task`: scan the queue in order; drop
completed-status entries (recording them), skip no-start entries, and pop
the first remaining task whose dependencies are met. -/
def getNextReadyTask (sm : SMState) : List DQueuedTask → NextTaskResult
  | [] => ⟨none, [], sm⟩
  | t :: rest =>
    match t.planStatus with
    | some st =>
      if lowerStr st ∈ COMPLETED_STATUSES then
        getNextReadyTask (markStale sm t.spec_id) rest
      else if lowerStr st ∈ NO_START_STATUSES then
        let r := getNextReadyTask sm rest
        ⟨r.ready, t :: r.queue, r.sm⟩
      else if areDepsMet sm t.depends_on then
        let r := staleSweep sm rest
        ⟨some t, r.1, r.2⟩
      else
        let r := getNextReadyTask sm rest
        ⟨r.ready, t :: r.queue, r.sm⟩
    | none =>
      if areDepsMet sm t.depends_on then
        let r := staleSweep sm rest
        ⟨some t, r.1, r.2⟩
      else
        let r := getNextReadyTask sm rest
        ⟨r.ready, t :: r.queue, r.sm⟩

/-- A queue entry whose recorded plan status is not stale
(completed-class). -/
def notStale (t : DQueuedTask) : Bool :=
  match t.planStatus with
  | some st => decide (lowerStr st ∉ COMPLETED_STATUSES)
  | none => true

/-- A queued task the scheduler may dispatch: its plan status (when
loadable) is not in the no-start classes and its dependencies are met. -/
def dispatchable (sm : SMState) (t : DQueuedTask) : Bool :=
  (match t.planStatus with
   | some st => decide (lowerStr st ∉ NO_START_STATUSES)
   | none => true) && areDepsMet sm t.depends_on

theorem qlt_irrefl (a : DQueuedTask) : qlt a a = false := by
  simp [qlt]

theorem completed_sub_no_start (y : Str) (h : y ∈ COMPLETED_STATUSES) :
    y ∈ NO_START_STATUSES := by
  unfold NO_START_STATUSES
  exact List.mem_append_left _ (List.mem_append_right _ h)

/-- C8.  If the queue is sorted by `QueuedTask.__lt__` (as the daemon keeps
it: lower priority value first, tie-break by earlier `queued_at`) and no
queued entry has a stale completed-class status, then whenever
`_get_next_ready_task` pops a task, that task is in the queue, is
dispatchable, and no other dispatchable queued task is strictly smaller in
the `(priority, queued_at)` order. -/
theorem c8_priority_ordering (sm : SMState) (queue : List DQueuedTask)
    (hsort : queue.Pairwise fun a b => qlt b a = false)
    (hns : ∀ t ∈ queue, notStale t = true)
    (t : DQueuedTask) (hr : (getNextReadyTask sm queue).ready = some t) :
    t ∈ queue ∧ dispatchable sm t = true ∧
      ∀ u ∈ queue, dispatchable sm u = true → qlt u t = false := by
  induction queue with
  | nil => exact nomatch hr
  | cons t0 rest ih =>
      rw [List.pairwise_cons] at hsort
      obtain ⟨hpair, hsort'⟩ := hsort
      have hns0 := hns t0 (List.mem_cons_self _ _)
      have hns' : ∀ u ∈ rest, notStale u = true :=
        fun u hu => hns u (List.mem_cons_of_mem _ hu)
      rcases hps : t0.planStatus with _ | st
      · simp only [getNextReadyTask, hps] at hr
        by_cases hdep : areDepsMet sm t0.depends_on = true
        · rw [if_pos hdep] at hr
          simp only at hr
          cases hr
          refine ⟨List.mem_cons_self _ _, ?_, ?_⟩
          · simp [dispatchable, hps, hdep]
          · intro u hu hdu
            rcases List.mem_cons.mp hu with rfl | hu'
            · exact qlt_irrefl u
            · exact hpair u hu'
        · rw [if_neg hdep] at hr
          simp only at hr
          obtain ⟨hmem, hdisp, hmin⟩ := ih hsort' hns' hr
          refine ⟨List.mem_cons_of_mem _ hmem, hdisp, ?_⟩
          intro u hu hdu
          rcases List.mem_cons.mp hu with rfl | hu'
          · exfalso
            rw [dispatchable, Bool.and_eq_true] at hdu
            exact hdep hdu.2
          · exact hmin u hu' hdu
      · have hnc : lowerStr st ∉ COMPLETED_STATUSES := by
          have h1 := hns0
          unfold notStale at h1
          rw [hps] at h1
          exact of_decide_eq_true h1
        simp only [getNextReadyTask, hps] at hr
        rw [if_neg hnc] at hr
        by_cases hnost : lowerStr st ∈ NO_START_STATUSES
        · rw [if_pos hnost] at hr
          simp only at hr
          obtain ⟨hmem, hdisp, hmin⟩ := ih hsort' hns' hr
          refine ⟨List.mem_cons_of_mem _ hmem, hdisp, ?_⟩
          intro u hu hdu
          rcases List.mem_cons.mp hu with rfl | hu'
          · exfalso
            rw [dispatchable, Bool.and_eq_true, hps] at hdu
            exact absurd hnost (of_decide_eq_true hdu.1)
          · exact hmin u hu' hdu
        · rw [if_neg hnost] at hr
          by_cases hdep : areDepsMet sm t0.depends_on = true
          · rw [if_pos hdep] at hr
            simp only at hr
            cases hr
            refine ⟨List.mem_cons_self _ _, ?_, ?_⟩
            · unfold dispatchable
              rw [hps, hdep]
              simp [hnost]
            · intro u hu hdu
              rcases List.mem_cons.mp hu with rfl | hu'
              · exact qlt_irrefl u
              · exact hpair u hu'
          · rw [if_neg hdep] at hr
            simp only at hr
            obtain ⟨hmem, hdisp, hmin⟩ := ih hsort' hns' hr
            refine ⟨List.mem_cons_of_mem _ hmem, hdisp, ?_⟩
            intro u hu hdu
            rcases List.mem_cons.mp hu with rfl | hu'
            · exfalso
              rw [dispatchable, Bool.and_eq_true] at hdu
              exact hdep hdu.2
            · exact hmin u hu' hdu

/-- The two-task queue (priorities 1 and 2, both ready) of the C8 witness. -/
def cexTaskHigh : DQueuedTask := ⟨s001a, 1, 0, [], some sQueue⟩

def cexTaskLow : DQueuedTask := ⟨s002x, 2, 0, [], some sQueue⟩

/-- Witness for C8: with both tasks dispatchable, the scheduler pops the
priority-1 task, and no dispatchable task is smaller in the order. -/
theorem c8_priority_ordering_witness :
    (getNextReadyTask smInit [cexTaskHigh, cexTaskLow]).ready
        = some cexTaskHigh ∧
      (cexTaskHigh ∈ [cexTaskHigh, cexTaskLow] ∧
        dispatchable smInit cexTaskHigh = true ∧
        ∀ u ∈ [cexTaskHigh, cexTaskLow],
          dispatchable smInit u = true → qlt u cexTaskHigh = false) :=
  ⟨by decide,
    c8_priority_ordering smInit [cexTaskHigh, cexTaskLow]
      (by decide) (by decide) cexTaskHigh (by decide)⟩

end AC247

namespace AC247

/-! ### Plan-file write traces — C6.

Three writers of `implementation_plan.json` are embedded as the sequences
of file-system operations they perform:

* `TaskDaemon._update_plan_status` (__init__.py lines 462-485): write a
  `.tmp` sibling, then `Path.replace` it over the plan path;
* `SpecFactory._resolve_batch_dependencies` (spec_factory.py lines
  302-311) and `SpecFactory.repair_all_dependencies` (lines 613-622):
  `plan_path.write_text(...)` — a direct in-place write;
* the `create_batch_child_specs` parent update (subtask.py lines 579-584):
  `open(parent_plan_file, "w")` + `json.dump` — a direct in-place write
  (the atomic fallback is reached only after three `PermissionError`s).

An in-place write is observable mid-way: it truncates the file and then
fills it, so its micro-step semantics passes through an empty file. -/

inductive FsOp where
  | fwrite (path content : Str)
  | frename (src dst : Str)
  deriving Repr, DecidableEq

inductive MicroOp where
  | mset (path content : Str)
  | mren (src dst : Str)
  deriving Repr, DecidableEq

/-- An in-place write truncates, then fills; a rename is one atomic step. -/
def microOf : FsOp → List MicroOp
  | .fwrite p c => [.mset p [], .mset p c]
  | .frename s d => [.mren s d]

def microTrace (ops : List FsOp) : List MicroOp := (ops.map microOf).flatten

def Fs : Type := Str → Option Str

def applyMicro (fs : Fs) : MicroOp → Fs
  | .mset p c => fun q => if q = p then some c else fs q
  | .mren s d => fun q => if q = d then fs s else if q = s then none else fs q

/-- Every file-system state a concurrent reader could observe while the
micro-operations run, the initial and final states included. -/
def statesFrom (fs : Fs) : List MicroOp → List Fs
  | [] => [fs]
  | op :: rest => fs :: statesFrom (applyMicro fs op) rest

def planFileName : Str := "/implementation_plan.json".toList

def planTmpName : Str := "/implementation_plan.tmp".toList

def planPath (dir : Str) : Str := dir ++ planFileName

def planTmpPath (dir : Str) : Str := dir ++ planTmpName

/-- `TaskDaemon._update_plan_status`: temp write, then rename over the
canonical path. -/
def updatePlanStatusOps (dir content : Str) : List FsOp :=
  [.fwrite (planTmpPath dir) content,
    .frename (planTmpPath dir) (planPath dir)]

/-- `SpecFactory._resolve_batch_dependencies`, per updated child:
`plan_path.write_text(json.dumps(plan, indent=2))`. -/
def resolveBatchDepsWriteOps (dir content : Str) : List FsOp :=
  [.fwrite (planPath dir) content]

/-- `SpecFactory.repair_all_dependencies`, per repaired spec:
`plan_path.write_text(json.dumps(plan, indent=2))`. -/
def repairDependenciesWriteOps (dir content : Str) : List FsOp :=
  [.fwrite (planPath dir) content]

/-- `create_batch_child_specs` parent update, first (non-erroring)
attempt: `open(parent_plan_file, "w")` + `json.dump`. -/
def batchParentUpdateWriteOps (dir content : Str) : List FsOp :=
  [.fwrite (planPath dir) content]

theorem planTmpPath_ne (dir : Str) : planTmpPath dir ≠ planPath dir := by
  intro h
  unfold planTmpPath planPath at h
  have h2 : planTmpName = planFileName := List.append_cancel_left h
  exact absurd h2 (by decide)

theorem planPath_ne_tmp (dir : Str) : planPath dir ≠ planTmpPath dir :=
  fun h => planTmpPath_ne dir h.symm

/-- C6 (amended).  The daemon's status updater is atomic: a reader of the
plan path sees either the prior contents or the complete new contents at
every point of its trace.  The spec factory's dependency-resolution and
repair passes and the batch tool's parent update instead write the plan
path in place, so each of their traces contains an observable state in
which the plan file holds neither the old nor the new contents (the
truncated file). -/
theorem c6_atomic_plan_writes_amended (dir content : Str) (fs0 : Fs)
    (hold : fs0 (planPath dir) ≠ some []) (hnew : content ≠ []) :
    (∀ s ∈ statesFrom fs0 (microTrace (updatePlanStatusOps dir content)),
      s (planPath dir) = fs0 (planPath dir) ∨ s (planPath dir) = some content) ∧
      (∃ s ∈ statesFrom fs0 (microTrace (resolveBatchDepsWriteOps dir content)),
        s (planPath dir) ≠ fs0 (planPath dir) ∧ s (planPath dir) ≠ some content) ∧
      (∃ s ∈ statesFrom fs0 (microTrace (repairDependenciesWriteOps dir content)),
        s (planPath dir) ≠ fs0 (planPath dir) ∧ s (planPath dir) ≠ some content) ∧
      (∃ s ∈ statesFrom fs0 (microTrace (batchParentUpdateWriteOps dir content)),
        s (planPath dir) ≠ fs0 (planPath dir) ∧ s (planPath dir) ≠ some content) := by
  have hmid : ∀ q : Fs, (applyMicro q (.mset (planPath dir) [])) (planPath dir)
      = some [] := by
    intro q
    simp [applyMicro]
  have hdirect : ∃ s ∈ statesFrom fs0
      (microTrace ([FsOp.fwrite (planPath dir) content])),
      s (planPath dir) ≠ fs0 (planPath dir) ∧ s (planPath dir) ≠ some content := by
    refine ⟨applyMicro fs0 (.mset (planPath dir) []), ?_, ?_, ?_⟩
    · simp only [microTrace, List.map, microOf, List.flatten, statesFrom,
        List.append_nil]
      exact List.mem_cons_of_mem _ (List.mem_cons_self _ _)
    · rw [hmid fs0]
      exact fun h => hold h.symm
    · rw [hmid fs0]
      intro h
      exact hnew (Option.some.inj h).symm
  refine ⟨?_, hdirect, hdirect, hdirect⟩
  intro s hs
  simp only [microTrace, updatePlanStatusOps, List.map, microOf, List.flatten,
    statesFrom, List.append_nil, List.cons_append, List.nil_append,
    List.mem_cons, List.not_mem_nil, or_false] at hs
  have htmp : planPath dir ≠ planTmpPath dir := planPath_ne_tmp dir
  rcases hs with rfl | rfl | rfl | rfl
  · exact Or.inl rfl
  · left
    simp [applyMicro, htmp]
  · left
    simp [applyMicro, htmp]
  · right
    simp [applyMicro, htmp]

def cexDirD : Str := "d".toList

def cexContentX : Str := "x".toList

def cexContentY : Str := "y".toList

/-- The initial file system of the C6 counterexample: the plan file of
spec directory `d` holds `"x"`. -/
def cexFs : Fs := fun q => if q = planPath cexDirD then some cexContentX else none

/-- Counterexample to C6 as stated: during the spec factory's
dependency-resolution write of new contents `"y"` over a plan holding
`"x"`, a reader can observe the plan path holding neither — the direct
`write_text` passes through a truncated file, so this write is not a
temp-file-rename. -/
theorem c6_atomic_plan_writes_cex :
    ∃ s ∈ statesFrom cexFs
      (microTrace (resolveBatchDepsWriteOps cexDirD cexContentY)),
      s (planPath cexDirD) ≠ cexFs (planPath cexDirD) ∧
        s (planPath cexDirD) ≠ some cexContentY := by
  refine ⟨applyMicro cexFs (.mset (planPath cexDirD) []), ?_, ?_, ?_⟩
  · simp only [microTrace, resolveBatchDepsWriteOps, List.map, microOf,
      List.flatten, statesFrom, List.append_nil]
    exact List.mem_cons_of_mem _ (List.mem_cons_self _ _)
  · decide
  · decide

/-- Witness for the amended C6 at the concrete directory `d`, old plan
contents `"x"` and new contents `"y"`. -/
theorem c6_atomic_plan_writes_witness :
    (cexFs (planPath cexDirD) ≠ some [] ∧ cexContentY ≠ []) ∧
      ((∀ s ∈ statesFrom cexFs
          (microTrace (updatePlanStatusOps cexDirD cexContentY)),
        s (planPath cexDirD) = cexFs (planPath cexDirD) ∨
          s (planPath cexDirD) = some cexContentY) ∧
        (∃ s ∈ statesFrom cexFs
          (microTrace (resolveBatchDepsWriteOps cexDirD cexContentY)),
          s (planPath cexDirD) ≠ cexFs (planPath cexDirD) ∧
            s (planPath cexDirD) ≠ some cexContentY) ∧
        (∃ s ∈ statesFrom cexFs
          (microTrace (repairDependenciesWriteOps cexDirD cexContentY)),
          s (planPath cexDirD) ≠ cexFs (planPath cexDirD) ∧
            s (planPath cexDirD) ≠ some cexContentY) ∧
        (∃ s ∈ statesFrom cexFs
          (microTrace (batchParentUpdateWriteOps cexDirD cexContentY)),
          s (planPath cexDirD) ≠ cexFs (planPath cexDirD) ∧
            s (planPath cexDirD) ≠ some cexContentY)) :=
  ⟨⟨by decide, by decide⟩,
    c6_atomic_plan_writes_amended cexDirD cexContentY cexFs (by decide)
      (by decide)⟩

end AC247

namespace AC247

/-! ### MCTS tree — `mcts/tree.py`, `MCTSNode` and `MCTSTree`.

The node and tree records are parametric in the score type `α`: the UCB
computation (C3) instantiates `α := ℝ` (Python floats read as reals, since
the formula involves `sqrt`, `ln` and a real power), while backpropagation
(C7) is proved for any linearly ordered score type and witnessed at `ℚ`.
The `nodes` dict is an association list; `lessons` and `metadata` are
carried as opaque payloads. -/

structure MCTSNode (α : Type) where
  id : Str
  parent_id : Option Str
  spec_id : Option Str
  action : Str
  idea_summary : Str
  score : α
  visit_count : Nat
  status : Str
  cost_seconds : α
  cost_tokens : Nat
  children : List Str
  lessons : List Str
  metadata : List (Str × Str)
  deriving Repr, DecidableEq

structure MCTSTree (α : Type) where
  root_id : Str
  nodes : List (Str × MCTSNode α)
  best_node_id : Option Str
  total_budget_seconds : α
  spent_budget_seconds : α
  total_iterations : Nat
  max_iterations : Nat
  convergence_threshold : α
  exploration_constant : α
  cost_penalty_weight : α
  created_at : α
  deriving Repr, DecidableEq

variable {α : Type}

/-- `self.nodes.get(i)` over the association list (first match, as in a
dict with unique keys). -/
def findNode : List (Str × MCTSNode α) → Str → Option (MCTSNode α)
  | [], _ => none
  | (k, v) :: rest, i => if k = i then some v else findNode rest i

/-- In-place update of the entry at an existing key. -/
def updNode : List (Str × MCTSNode α) → Str → (MCTSNode α → MCTSNode α) →
    List (Str × MCTSNode α)
  | [], _, _ => []
  | (k, v) :: rest, i, f =>
    if k = i then (k, f v) :: rest else (k, v) :: updNode rest i f

/-- `MCTSNode.is_evaluated`: `score >= 0.0`. -/
def isEvaluated [Zero α] [LE α] [DecidableRel (α := α) (· ≤ ·)]
    (n : MCTSNode α) : Bool :=
  decide ((0 : α) ≤ n.score)

def sCompletedNode : Str := "completed".toList

/-- `MCTSNode.is_expandable`: completed and evaluated. -/
def isExpandable [Zero α] [LE α] [DecidableRel (α := α) (· ≤ ·)]
    (n : MCTSNode α) : Bool :=
  decide (n.status = sCompletedNode) && isEvaluated n

end AC247

namespace AC247

/-! ### UCB computation — `mcts/tree.py`, `MCTSTree._compute_ucb`
(lines 206-230) and `MCTSTree._compute_budget_penalty` (lines 232-250),
over the reals. -/

/-- `MCTSTree._compute_budget_penalty`: `(allocated / actual) ** w` with
`allocated = total_budget_seconds / max(len(nodes) - 1, 1)`, and 1.0 for a
non-positive cost. -/
noncomputable def computeBudgetPenalty (tree : MCTSTree ℝ)
    (node : MCTSNode ℝ) : ℝ :=
  if node.cost_seconds ≤ 0 then 1
  else
    let totalBranches : ℕ := max (tree.nodes.length - 1) 1
    let allocated := tree.total_budget_seconds / (totalBranches : ℝ)
    let actual := node.cost_seconds
    if actual ≤ 0 then 1
    else (allocated / actual) ^ tree.cost_penalty_weight

/-- The value `_compute_ucb` returns: `float("inf")` for an unvisited node,
otherwise a real. -/
inductive UcbVal where
  | inf
  | val (x : ℝ)

/-- `MCTSTree._compute_ucb`: `+∞` when unvisited; otherwise
`score + C * sqrt(ln(max(parent_visits, 1)) / visit_count) * penalty`,
where `parent_visits` is the parent's visit count when `parent_id` is
truthy and resolves in `nodes`, and `tree.total_iterations` otherwise. -/
noncomputable def computeUcb (tree : MCTSTree ℝ) (node : MCTSNode ℝ) :
    UcbVal :=
  if node.visit_count = 0 then .inf
  else
    let exploitation := node.score
    let parent : Option (MCTSNode ℝ) :=
      match node.parent_id with
      | some pid => if pid = [] then none else findNode tree.nodes pid
      | none => none
    let parentVisitsRaw : ℕ :=
      match parent with
      | some p => p.visit_count
      | none => tree.total_iterations
    let parentVisits : ℕ := max parentVisitsRaw 1
    let exploration := tree.exploration_constant *
      Real.sqrt (Real.log (parentVisits : ℝ) / (node.visit_count : ℝ))
    .val (exploitation + exploration * computeBudgetPenalty tree node)

/-- The selection value exactly as the claim (and spec §4.7) writes it:
`v.score + C * sqrt(ln(max(p.visits, tree.total_iterations)) / v.visits) *
penalty(v)`.  Modelled from the spec's words for comparison against
`computeUcb`. -/
noncomputable def specUcbFormula (tree : MCTSTree ℝ) (node p : MCTSNode ℝ) :
    ℝ :=
  node.score + tree.exploration_constant *
    Real.sqrt (Real.log ((max p.visit_count tree.total_iterations : ℕ) : ℝ) /
      (node.visit_count : ℝ)) *
    computeBudgetPenalty tree node

/-- C3 (amended).  For a visited node whose (truthy) `parent_id` resolves
to `p`, the computed selection value is `score + C *
sqrt(ln(max(p.visits, 1)) / visits) * penalty` — the parent's visit count
floored at 1, with `tree.total_iterations` entering only for parentless
nodes — and an unvisited node receives `+∞`. -/
theorem c3_ucb_selection_amended (tree : MCTSTree ℝ) (node p : MCTSNode ℝ)
    (pid : Str) (hv : node.visit_count ≠ 0) (hpid : node.parent_id = some pid)
    (hne : pid ≠ []) (hfind : findNode tree.nodes pid = some p) :
    computeUcb tree node =
        .val (node.score + tree.exploration_constant *
          Real.sqrt (Real.log ((max p.visit_count 1 : ℕ) : ℝ) /
            (node.visit_count : ℝ)) *
          computeBudgetPenalty tree node) ∧
      (∀ n : MCTSNode ℝ, n.visit_count = 0 → computeUcb tree n = .inf) := by
  constructor
  · simp only [computeUcb]
    rw [if_neg hv, hpid]
    dsimp only
    rw [if_neg hne, hfind]
  · intro n hn
    simp [computeUcb, hn]

def cexPid : Str := "p".toList

def cexVid : Str := "v".toList

def sRootAct : Str := "root".toList

def sDraftAct : Str := "draft".toList

/-- The parent node of the C3 counterexample: one visit. -/
noncomputable def cexParent : MCTSNode ℝ :=
  ⟨cexPid, none, none, sRootAct, [], 0, 1, sCompletedNode, 0, 0, [cexVid],
    [], []⟩

/-- The expandable leaf of the C3 counterexample: score 0, one visit, zero
cost, parent `p`. -/
noncomputable def cexNodeV : MCTSNode ℝ :=
  ⟨cexVid, some cexPid, none, sDraftAct, [], 0, 1, sCompletedNode, 0, 0, [],
    [], []⟩

/-- The C3 counterexample tree: `total_iterations = 5`,
`exploration_constant = 1`, both nodes present. -/
noncomputable def cexUcbTree : MCTSTree ℝ :=
  ⟨cexPid, [(cexPid, cexParent), (cexVid, cexNodeV)], none, 3600, 0, 5, 10,
    (2 : ℝ) / 100, 1, -(7 : ℝ) / 100, 0⟩

theorem cexPenalty_one : computeBudgetPenalty cexUcbTree cexNodeV = 1 := by
  unfold computeBudgetPenalty
  rw [if_pos (show cexNodeV.cost_seconds ≤ (0 : ℝ) from le_refl 0)]

theorem cexUcb_code_val : computeUcb cexUcbTree cexNodeV = .val 0 := by
  have h1 : computeUcb cexUcbTree cexNodeV =
      .val ((0 : ℝ) + 1 *
        Real.sqrt (Real.log ((max 1 1 : ℕ) : ℝ) / ((1 : ℕ) : ℝ)) *
        computeBudgetPenalty cexUcbTree cexNodeV) := rfl
  rw [h1, cexPenalty_one]
  norm_num

theorem cexUcb_spec_val :
    specUcbFormula cexUcbTree cexNodeV cexParent =
      Real.sqrt (Real.log 5) := by
  have h1 : specUcbFormula cexUcbTree cexNodeV cexParent =
      (0 : ℝ) + 1 *
        Real.sqrt (Real.log ((max 1 5 : ℕ) : ℝ) / ((1 : ℕ) : ℝ)) *
        computeBudgetPenalty cexUcbTree cexNodeV := rfl
  rw [h1, cexPenalty_one]
  norm_num

/-- Counterexample to C3 as stated: in a tree with `total_iterations = 5`,
an expandable once-visited leaf under a once-visited parent gets selection
value 0 from the code (`ln(max(1, 1)) = 0`), while the claim's formula
`score + C*sqrt(ln(max(p.visits, total_iterations))/visits)*penalty` gives
`sqrt(ln 5) > 0` — the code never takes `total_iterations` into account
when the parent resolves. -/
theorem c3_ucb_selection_cex :
    isExpandable cexNodeV = true ∧ cexNodeV.visit_count = 1 ∧
      cexNodeV.parent_id = some cexParent.id ∧
      computeUcb cexUcbTree cexNodeV ≠
        .val (specUcbFormula cexUcbTree cexNodeV cexParent) := by
  refine ⟨by norm_num [isExpandable, isEvaluated, cexNodeV], rfl, rfl, ?_⟩
  rw [cexUcb_code_val, cexUcb_spec_val]
  intro h
  have h0 : (0 : ℝ) = Real.sqrt (Real.log 5) := by
    injection h
  have hpos : 0 < Real.sqrt (Real.log 5) :=
    Real.sqrt_pos.mpr (Real.log_pos (by norm_num))
  exact absurd h0.symm (ne_of_gt hpos)

/-- Witness for the amended C3 at the counterexample tree: the hypotheses
hold concretely and the code value matches the amended formula. -/
theorem c3_ucb_selection_witness :
    (cexNodeV.visit_count ≠ 0 ∧ cexNodeV.parent_id = some cexPid ∧
        cexPid ≠ [] ∧ findNode cexUcbTree.nodes cexPid = some cexParent) ∧
      (computeUcb cexUcbTree cexNodeV =
          .val (cexNodeV.score + cexUcbTree.exploration_constant *
            Real.sqrt (Real.log ((max cexParent.visit_count 1 : ℕ) : ℝ) /
              (cexNodeV.visit_count : ℝ)) *
            computeBudgetPenalty cexUcbTree cexNodeV) ∧
        (∀ n : MCTSNode ℝ, n.visit_count = 0 →
          computeUcb cexUcbTree n = .inf)) :=
  ⟨⟨by norm_num [cexNodeV], rfl, by decide, rfl⟩,
    c3_ucb_selection_amended cexUcbTree cexNodeV cexParent cexPid
      (by norm_num [cexNodeV]) rfl (by decide) rfl⟩

end AC247

namespace AC247

/-! ### Backpropagation — `mcts/tree.py`, `MCTSTree.backpropagate`
(lines 282-309), parametric in the score type.

The `while current_id and current_id in self.nodes` ancestor walk is
embedded with a fuel argument set to the size of the node table: a walk
along a duplicate-free parent chain never needs more steps than there are
keys, so the fuel never runs out on the well-formed trees the theorem
quantifies over. -/

variable {α : Type}

/-- Increment a node's visit count, leaving every other field unchanged. -/
def bumpVisit (n : MCTSNode α) : MCTSNode α :=
  { n with visit_count := n.visit_count + 1 }

/-- The ancestor walk of `backpropagate`: follow `parent_id` while it is
truthy and present, incrementing only visit counts. -/
def bumpAncestors : Nat → List (Str × MCTSNode α) → Option Str →
    List (Str × MCTSNode α)
  | _, nodes, none => nodes
  | 0, nodes, some _ => nodes
  | Nat.succ fuel, nodes, some cid =>
    if cid = [] then nodes
    else
      match findNode nodes cid with
      | none => nodes
      | some n => bumpAncestors fuel (updNode nodes cid bumpVisit) n.parent_id

/-- The ids the ancestor walk visits, in order; `none` only when the fuel
runs out with the walk still going (impossible below the fuel bound on a
duplicate-free chain). -/
def parentChainAux : Nat → List (Str × MCTSNode α) → Option Str →
    Option (List Str)
  | _, _, none => some []
  | 0, _, some _ => none
  | Nat.succ fuel, nodes, some cid =>
    if cid = [] then some []
    else
      match findNode nodes cid with
      | none => some []
      | some n => (parentChainAux fuel nodes n.parent_id).map (fun l => cid :: l)

/-- `MCTSTree.backpropagate`: set the leaf's score and bump its visit
count, bump every ancestor's visit count, then update `best_node_id` to
this leaf when the leaf is evaluated and its score strictly exceeds the
current best (or there is no usable current best). -/
def backpropagate [Zero α] [LT α] [LE α]
    [DecidableRel (α := α) (· < ·)] [DecidableRel (α := α) (· ≤ ·)]
    (tree : MCTSTree α) (nodeId : Str) (score : α) : MCTSTree α :=
  match findNode tree.nodes nodeId with
  | none => tree
  | some leaf =>
    let nodes1 := updNode tree.nodes nodeId
      (fun n => { n with score := score, visit_count := n.visit_count + 1 })
    let nodes2 := bumpAncestors nodes1.length nodes1 leaf.parent_id
    let best :=
      if (0 : α) ≤ score then
        match tree.best_node_id with
        | none => some nodeId
        | some bid =>
          match findNode nodes2 bid with
          | none => some nodeId
          | some currentBest =>
            if currentBest.score < score then some nodeId
            else tree.best_node_id
      else tree.best_node_id
    { tree with nodes := nodes2, best_node_id := best }

theorem findNode_updNode (nodes : List (Str × MCTSNode α)) (i j : Str)
    (f : MCTSNode α → MCTSNode α) :
    findNode (updNode nodes i f) j =
      if j = i then (findNode nodes i).map f else findNode nodes j := by
  induction nodes with
  | nil =>
      simp only [updNode, findNode, Option.map_none']
      split <;> rfl
  | cons kv rest ih =>
      obtain ⟨k, v⟩ := kv
      simp only [updNode, findNode]
      by_cases hk : k = i
      · subst hk
        simp only [if_pos rfl, findNode]
        by_cases hj : j = k
        · subst hj
          simp
        · have hkj : ¬ k = j := fun h => hj h.symm
          simp [hj, hkj]
      · rw [if_neg hk]
        simp only [findNode]
        by_cases hkj : k = j
        · subst hkj
          simp [hk]
        · simp [hk, hkj, ih]

theorem updNode_length (nodes : List (Str × MCTSNode α)) (i : Str)
    (f : MCTSNode α → MCTSNode α) :
    (updNode nodes i f).length = nodes.length := by
  induction nodes with
  | nil => rfl
  | cons kv rest ih =>
      obtain ⟨k, v⟩ := kv
      simp only [updNode]
      split
      · simp
      · simp [ih]

theorem parentChainAux_updNode (fuel : Nat) :
    ∀ (nodes : List (Str × MCTSNode α)) (i : Str)
      (f : MCTSNode α → MCTSNode α)
      (hf : ∀ n, (f n).parent_id = n.parent_id) (cur : Option Str),
      parentChainAux fuel (updNode nodes i f) cur =
        parentChainAux fuel nodes cur := by
  induction fuel with
  | zero =>
      intro nodes i f _hf cur
      cases cur <;> rfl
  | succ fuel ih =>
      intro nodes i f hf cur
      cases cur with
      | none => rfl
      | some cid =>
        simp only [parentChainAux]
        by_cases hcid : cid = []
        · rw [if_pos hcid, if_pos hcid]
        · rw [if_neg hcid, if_neg hcid, findNode_updNode]
          by_cases hci : cid = i
          · rw [if_pos hci, ← hci]
            cases hfi : findNode nodes cid with
            | none => rfl
            | some n =>
                dsimp only [Option.map_some']
                rw [hf n, ih nodes cid f hf n.parent_id]
          · rw [if_neg hci]
            cases hfi : findNode nodes cid with
            | none => rfl
            | some n =>
                dsimp only
                rw [ih nodes i f hf n.parent_id]

theorem bumpVisit_parent (n : MCTSNode α) :
    (bumpVisit n).parent_id = n.parent_id := rfl

theorem bumpAncestors_spec (fuel : Nat) :
    ∀ (nodes : List (Str × MCTSNode α)) (cur : Option Str) (chain : List Str),
      parentChainAux fuel nodes cur = some chain → chain.Nodup →
      ((∀ a ∈ chain, ∀ n, findNode nodes a = some n →
          findNode (bumpAncestors fuel nodes cur) a = some (bumpVisit n)) ∧
        (∀ j, j ∉ chain →
          findNode (bumpAncestors fuel nodes cur) j = findNode nodes j)) := by
  induction fuel with
  | zero =>
      intro nodes cur chain hchain hnd
      cases cur with
      | none =>
          have : chain = [] := by
            simpa [parentChainAux] using hchain.symm
          subst this
          exact ⟨fun a ha => absurd ha (List.not_mem_nil a),
            fun j _ => rfl⟩
      | some cid => exact absurd hchain (by simp [parentChainAux])
  | succ fuel ih =>
      intro nodes cur chain hchain hnd
      cases cur with
      | none =>
          have : chain = [] := by
            simpa [parentChainAux] using hchain.symm
          subst this
          exact ⟨fun a ha => absurd ha (List.not_mem_nil a), fun j _ => rfl⟩
      | some cid =>
        simp only [parentChainAux] at hchain
        by_cases hcid : cid = []
        · rw [if_pos hcid] at hchain
          have : chain = [] := by
            simpa using hchain.symm
          subst this
          simp only [bumpAncestors, if_pos hcid]
          exact ⟨fun a ha => absurd ha (List.not_mem_nil a), fun j _ => trivial⟩
        · rw [if_neg hcid] at hchain
          cases hfi : findNode nodes cid with
          | none =>
              rw [hfi] at hchain
              have : chain = [] := by
                simpa using hchain.symm
              subst this
              simp only [bumpAncestors, if_neg hcid, hfi]
              exact ⟨fun a ha => absurd ha (List.not_mem_nil a),
                fun j _ => trivial⟩
          | some n =>
              rw [hfi] at hchain
              obtain ⟨rest, hrest, hch⟩ := Option.map_eq_some'.mp hchain
              subst hch
              rw [List.nodup_cons] at hnd
              obtain ⟨hcid_rest, hnd_rest⟩ := hnd
              simp only [bumpAncestors, if_neg hcid, hfi]
              have hchain' : parentChainAux fuel
                  (updNode nodes cid bumpVisit) n.parent_id = some rest := by
                rw [parentChainAux_updNode fuel nodes cid bumpVisit
                  (fun m => rfl) n.parent_id]
                exact hrest
              obtain ⟨ih1, ih2⟩ := ih (updNode nodes cid bumpVisit)
                n.parent_id rest hchain' hnd_rest
              constructor
              · intro a ha m hm
                rcases List.mem_cons.mp ha with rfl | ha'
                · have hm' : m = n := by
                    rw [hfi] at hm
                    exact (Option.some.inj hm).symm
                  subst hm'
                  rw [ih2 a hcid_rest, findNode_updNode, if_pos rfl, hfi]
                  rfl
                · have hane : a ≠ cid := fun h => hcid_rest (h ▸ ha')
                  have : findNode (updNode nodes cid bumpVisit) a = some m := by
                    rw [findNode_updNode, if_neg hane]
                    exact hm
                  exact ih1 a ha' m this
              · intro j hj
                have hjc : j ≠ cid := fun h => hj (h ▸ List.mem_cons_self _ _)
                have hjr : j ∉ rest := fun h => hj (List.mem_cons_of_mem _ h)
                rw [ih2 j hjr, findNode_updNode, if_neg hjc]

end AC247

namespace AC247

/-- C7.  For every tree and evaluated leaf (score ≥ 0) with a well-formed,
duplicate-free ancestor chain, `backpropagate(node_id, score)` sets the
leaf's score to the given value and bumps its visit count, bumps the visit
count of exactly the ancestors in the chain — each by one, leaving their
score and every other field unchanged — leaves every other node untouched,
and moves `best_node_id` only to this leaf: when there was no best yet, or
when the score strictly exceeds the current best's (the earlier best is
kept on equality). -/
theorem c7_backpropagation {α : Type} [Zero α] [LT α] [LE α]
    [DecidableRel (α := α) (· < ·)] [DecidableRel (α := α) (· ≤ ·)]
    (tree : MCTSTree α) (nodeId : Str) (score : α) (leaf : MCTSNode α)
    (hleaf : findNode tree.nodes nodeId = some leaf) (chain : List Str)
    (hchain : parentChainAux tree.nodes.length tree.nodes leaf.parent_id
      = some chain)
    (hnd : chain.Nodup) (hnotin : nodeId ∉ chain) (hscore : (0 : α) ≤ score)
    (result : MCTSTree α)
    (hres : result = backpropagate tree nodeId score) :
    findNode result.nodes nodeId =
        some { leaf with score := score, visit_count := leaf.visit_count + 1 } ∧
      (∀ a ∈ chain, ∀ n, findNode tree.nodes a = some n →
        findNode result.nodes a = some (bumpVisit n)) ∧
      (∀ j, j ≠ nodeId → j ∉ chain →
        findNode result.nodes j = findNode tree.nodes j) ∧
      (tree.best_node_id = none → result.best_node_id = some nodeId) ∧
      (∀ bid currentBest, tree.best_node_id = some bid →
        findNode result.nodes bid = some currentBest →
        result.best_node_id =
          if currentBest.score < score then some nodeId else some bid) := by
  subst hres
  simp only [backpropagate, hleaf]
  have len1 : (updNode tree.nodes nodeId
      (fun n => { n with score := score, visit_count := n.visit_count + 1 })).length
      = tree.nodes.length := updNode_length _ _ _
  have hchain1 : parentChainAux (updNode tree.nodes nodeId
      (fun n => { n with score := score, visit_count := n.visit_count + 1 })).length
      (updNode tree.nodes nodeId
        (fun n => { n with score := score, visit_count := n.visit_count + 1 }))
      leaf.parent_id = some chain := by
    rw [len1, parentChainAux_updNode tree.nodes.length tree.nodes nodeId
      (fun n => { n with score := score, visit_count := n.visit_count + 1 })
      (fun n => rfl) leaf.parent_id]
    exact hchain
  obtain ⟨S1, S2⟩ := bumpAncestors_spec _ _ leaf.parent_id chain hchain1 hnd
  refine ⟨?_, ?_, ?_, ?_, ?_⟩
  · rw [S2 nodeId hnotin, findNode_updNode, if_pos rfl, hleaf]
    rfl
  · intro a ha n hn
    have hane : a ≠ nodeId := fun h => hnotin (h ▸ ha)
    have h1 : findNode (updNode tree.nodes nodeId
        (fun n => { n with score := score, visit_count := n.visit_count + 1 }))
        a = some n := by
      rw [findNode_updNode, if_neg hane]
      exact hn
    exact S1 a ha n h1
  · intro j hj hjc
    rw [S2 j hjc, findNode_updNode, if_neg hj]
  · intro hb
    rw [if_pos hscore, hb]
  · intro bid currentBest hb hfb
    rw [if_pos hscore, hb]
    dsimp only
    rw [hfb]

/-- The two-node rational tree of the C7 witness: a completed root and an
unevaluated leaf under it. -/
def wRoot : MCTSNode ℚ :=
  ⟨cexPid, none, none, sRootAct, [], 0, 0, sCompletedNode, 0, 0, [cexVid],
    [], []⟩

def wLeaf : MCTSNode ℚ :=
  ⟨cexVid, some cexPid, none, sDraftAct, [], -1, 0, sCompletedNode, 0, 0, [],
    [], []⟩

def wTree : MCTSTree ℚ :=
  ⟨cexPid, [(cexPid, wRoot), (cexVid, wLeaf)], none, 3600, 0, 0, 10, 0, 1,
    0, 0⟩

/-- Witness for C7: backpropagating score 1 into the leaf of the concrete
two-node tree sets its score, bumps its visit count, bumps the root's
visit count only, and claims `best_node_id` for the leaf. -/
theorem c7_backpropagation_witness :
    (0 : ℚ) ≤ 1 ∧ cexVid ∉ [cexPid] ∧
      (findNode (backpropagate wTree cexVid (1 : ℚ)).nodes cexVid =
          some { wLeaf with score := 1, visit_count := wLeaf.visit_count + 1 } ∧
        (backpropagate wTree cexVid (1 : ℚ)).best_node_id = some cexVid) :=
  ⟨by decide, by decide,
    (c7_backpropagation wTree cexVid 1 wLeaf rfl [cexPid] (by decide)
      (by decide) (by decide) (by decide) _ rfl).1,
    ((c7_backpropagation wTree cexVid 1 wLeaf rfl [cexPid] (by decide)
      (by decide) (by decide) (by decide) _ rfl).2.2.2.1 rfl)⟩

end AC247
